import Mathlib

/-!
Verification development for the Igris repository.

Two subjects are embedded here:

1. The gift-registry client script (src/web/gift_registry/script.js): its
   value-normalisation helpers normalizeRecipient, normalizePrice and
   enhanceGift, over a small model of JavaScript values as produced by
   JSON.parse / form input.

2. The behavioral pattern-mining and suggestion engine described by the
   specification (Event Log, Window Index, Pattern Store, Pattern Miner,
   Suggestion Ranker, Feedback Adjuster).  No implementation of this engine
   exists in the repository; every definition of that part is modelled from
   the specification text and is marked as such.

Rational arithmetic in executable positions is routed through mkRat-based
helpers (qadd, qmul, ...) because the kernel does not unfold the Rat field
operations; bridge lemmas identify the helpers with the ordinary operations.
-/

/-! ## JavaScript value model -/

/-- A JavaScript number: a finite value, NaN, or a signed infinity. -/
inductive JSNum where
  | val (q : ℚ)
  | nan
  | inf
  | ninf

mutual
/-- A JavaScript value as reachable through JSON.parse or a form field:
null, undefined (absent field), booleans, numbers, strings and arrays. -/
inductive JSValue where
  | vNull
  | vUndefined
  | vBool (b : Bool)
  | vNum (n : JSNum)
  | vStr (s : String)
  | vArr (xs : JSList)
inductive JSList where
  | nil
  | cons (x : JSValue) (xs : JSList)
end

open JSValue JSNum

/-- Truthiness of a JavaScript number: 0 and NaN are falsy. -/
def numTruthy : JSNum → Bool
  | .val q => !(q = 0)
  | .nan => false
  | _ => true

/-- JavaScript truthiness: null, undefined, false, 0, NaN and the empty
string are falsy; every other value (arrays included) is truthy. -/
def jsTruthy : JSValue → Bool
  | vNull => false
  | vUndefined => false
  | vBool b => b
  | vNum n => numTruthy n
  | vStr s => !(s = "")
  | vArr _ => true

/-- The JavaScript short-circuit or, value-level: a || b. -/
def jsOr (a b : JSValue) : JSValue := if jsTruthy a then a else b

/-- String form of a JavaScript number (only the NaN and infinity spellings
matter to the claims; finite numbers get a placeholder fraction form). -/
def numToString (n : JSNum) : String :=
  match n with
  | .val q => if q.den = 1 then toString q.num else toString q.num ++ "/" ++ toString q.den
  | .nan => "NaN"
  | .inf => "Infinity"
  | .ninf => "-Infinity"

mutual
/-- Array.prototype.toString: elements joined by commas, with null and
undefined elements contributing the empty string. -/
def arrToString : JSList → String
  | .nil => ""
  | .cons x .nil => arrElem x
  | .cons x (.cons y ys) => arrElem x ++ "," ++ arrToString (.cons y ys)
/-- One array element inside a join: null and undefined print as nothing. -/
def arrElem : JSValue → String
  | vNull => ""
  | vUndefined => ""
  | vBool b => if b then "true" else "false"
  | vNum n => numToString n
  | vStr s => s
  | vArr xs => arrToString xs
end

/-- The JavaScript String() coercion. -/
def jsToString : JSValue → String
  | vNull => "null"
  | vUndefined => "undefined"
  | vBool b => if b then "true" else "false"
  | vNum n => numToString n
  | vStr s => s
  | vArr xs => arrToString xs

/-- ASCII lower-casing of one character, as String.prototype.toLowerCase
acts on the letters the script compares against. -/
def lowerChar (c : Char) : Char :=
  if 'A' ≤ c ∧ c ≤ 'Z' then Char.ofNat (c.toNat + 32) else c

/-- ASCII model of String.prototype.toLowerCase. -/
def lowerString (s : String) : String := String.mk (s.data.map lowerChar)

/-- Is the character an ASCII decimal digit. -/
def isDigitCh (c : Char) : Bool := decide ('0' ≤ c ∧ c ≤ '9')

/-- Numeric value of an ASCII digit. -/
def digitVal (c : Char) : ℤ := (c.toNat : ℤ) - 48

/-- Accumulate a digit run into an integer. -/
def accDigits : ℤ → List Char → ℤ
  | acc, [] => acc
  | acc, c :: cs => accDigits (acc * 10 + digitVal c) cs

/-- Is the character JavaScript whitespace (the forms relevant here). -/
def isSpaceCh (c : Char) : Bool := decide (c = ' ' ∨ c = '\t' ∨ c = '\n' ∨ c = '\r')

/-- Strip leading and trailing whitespace from a character list. -/
def trimChars (cs : List Char) : List Char :=
  ((cs.dropWhile isSpaceCh).reverse.dropWhile isSpaceCh).reverse

/-- Parse an unsigned decimal literal (digits, optionally with one decimal
point; at least one digit) to numerator and denominator. -/
def parseUnsigned (cs : List Char) : Option (ℤ × ℕ) :=
  let intPart := cs.takeWhile isDigitCh
  let rest := cs.dropWhile isDigitCh
  match rest with
  | [] => if intPart = [] then none else some (accDigits 0 intPart, 1)
  | '.' :: fracPart =>
    if fracPart.all isDigitCh ∧ (intPart ≠ [] ∨ fracPart ≠ []) then
      some (accDigits (accDigits 0 intPart) fracPart, 10 ^ fracPart.length)
    else none
  | _ => none

/-- Parse an optionally signed decimal literal. -/
def parseSigned (cs : List Char) : Option (ℤ × ℕ) :=
  match cs with
  | '+' :: rest => parseUnsigned rest
  | '-' :: rest => (parseUnsigned rest).map (fun nd => (-nd.1, nd.2))
  | _ => parseUnsigned cs

/-- Model of the JavaScript ToNumber coercion on strings: trimmed empty
input is 0, the Infinity spellings are infinite, a signed decimal literal
is its value, anything else is NaN. -/
def parseNumber (s : String) : JSNum :=
  let cs := trimChars s.data
  if cs = [] then .val 0
  else if cs = "Infinity".data ∨ cs = "+Infinity".data then .inf
  else if cs = "-Infinity".data then .ninf
  else match parseSigned cs with
    | some nd => .val (mkRat nd.1 nd.2)
    | none => .nan

/-- The JavaScript Number() coercion over the value model. -/
def jsToNumber : JSValue → JSNum
  | vNull => .val 0
  | vUndefined => .nan
  | vBool b => .val (if b then 1 else 0)
  | vNum n => n
  | vStr s => parseNumber s
  | vArr xs => parseNumber (arrToString xs)

/-- Number.isFinite. -/
def isFiniteNum : JSNum → Bool
  | .val _ => true
  | _ => false

/-! ## Gift registry script functions (src/web/gift_registry/script.js) -/

/-- The switch body of normalizeRecipient from script.js, over the already
normalized string: wife, mom and spouse map to wife, the listed kid
spellings and dad map to kids, and so does the default case. -/
def recipientSwitch (normalized : String) : String :=
  if normalized = "wife" ∨ normalized = "mom" ∨ normalized = "spouse" then "wife"
  else if normalized = "kid" ∨ normalized = "kids" ∨ normalized = "child" ∨
      normalized = "children" ∨ normalized = "son" ∨ normalized = "daughter" then "kids"
  else if normalized = "dad" then "kids"
  else "kids"

/-- normalizeRecipient from script.js: the switch applied to
String(value || "") lower-cased. -/
def normalizeRecipient (value : JSValue) : String :=
  recipientSwitch (lowerString (jsToString (jsOr value (vStr ""))))

/-- normalizePrice from script.js: a number is kept when finite else null;
null, undefined and the empty string give null; any other value is coerced
with Number() and kept only when finite. -/
def normalizePrice (v : JSValue) : JSValue :=
  match v with
  | vNum n => if isFiniteNum n then vNum n else vNull
  | vNull => vNull
  | vUndefined => vNull
  | vStr s =>
    if s = "" then vNull
    else if isFiniteNum (parseNumber s) then vNum (parseNumber s) else vNull
  | other => if isFiniteNum (jsToNumber other) then vNum (jsToNumber other) else vNull

/-- A gift object: the fields script.js reads and writes, each an arbitrary
JavaScript value (vUndefined models an absent field). -/
@[ext] structure GiftObj where
  id : JSValue
  name : JSValue
  recipient : JSValue
  category : JSValue
  priority : JSValue
  price : JSValue
  link : JSValue
  notes : JSValue
  purchased : JSValue
  added : JSValue

/-- enhanceGift from script.js.  The two sources of nondeterminism are made
explicit arguments: rid is the value cryptoRandomId() would return and
nowIso the value new Date().toISOString() would return. -/
def enhanceGift (rid nowIso : String) (g : GiftObj) : GiftObj :=
  { id := vStr (jsToString (jsOr g.id (vStr rid)))
    name := jsOr g.name (vStr "Untitled gift")
    recipient := vStr (normalizeRecipient g.recipient)
    category := jsOr g.category (vStr "experience")
    priority := jsOr g.priority (vStr "Medium")
    price := normalizePrice g.price
    link := jsOr g.link (vStr "")
    notes := jsOr g.notes (vStr "")
    purchased := vBool (jsTruthy g.purchased)
    added := jsOr g.added (vStr nowIso) }

/-! ## Kernel-reducible rational arithmetic

The Rat field operations do not unfold in the kernel, so the executable
parts of the engine model use these mkRat-based helpers; bridge lemmas in
the theorem section identify them with the ordinary operations. -/

/-- Executable rational addition. -/
def qadd (a b : ℚ) : ℚ := mkRat (a.num * (b.den : ℤ) + b.num * (a.den : ℤ)) (a.den * b.den)

/-- Executable rational subtraction. -/
def qsub (a b : ℚ) : ℚ := mkRat (a.num * (b.den : ℤ) - b.num * (a.den : ℤ)) (a.den * b.den)

/-- Executable rational multiplication. -/
def qmul (a b : ℚ) : ℚ := mkRat (a.num * b.num) (a.den * b.den)

/-- Executable rational division. -/
def qdiv (a b : ℚ) : ℚ :=
  if 0 ≤ b.num then mkRat (a.num * (b.den : ℤ)) (a.den * b.num.toNat)
  else mkRat (-(a.num * (b.den : ℤ))) (a.den * (-b.num).toNat)

/-- Executable rational comparison, non-strict. -/
def qle (a b : ℚ) : Bool := decide (a.num * (b.den : ℤ) ≤ b.num * (a.den : ℤ))

/-- Executable rational comparison, strict. -/
def qlt (a b : ℚ) : Bool := decide (a.num * (b.den : ℤ) < b.num * (a.den : ℤ))

/-- Executable rational maximum. -/
def qmax (a b : ℚ) : ℚ := if qle a b then b else a

/-- Executable rational minimum. -/
def qmin (a b : ℚ) : ℚ := if qle a b then a else b

/-! ## Pattern-mining engine, modelled from the specification

The repository contains no implementation of the engine (only design
prose), so everything below is modelled from the specification text. -/

/-- Modelled from the spec: the lookback window W, default 120 seconds.
The engine implementation is missing from the repository. -/
def lookbackW : ℚ := 120

/-- Modelled from the spec: minimum support threshold, default 3. -/
def minSupport : ℚ := 3

/-- Modelled from the spec: minimum confidence threshold, default 0.5. -/
def minConfidence : ℚ := mkRat 1 2

/-- Modelled from the spec: suggestion list truncation, top-K with K = 3. -/
def topK : ℕ := 3

/-- Modelled from the spec: the suggestion cooldown C, default 300 seconds. -/
def cooldownC : ℚ := 300

/-- Modelled from the spec: the decay prune floor, 0.01. -/
def pruneFloor : ℚ := mkRat 1 100

/-- Modelled from the spec: an ActionEvent with its identifier, timestamp
and the append-time sequence number. -/
structure ActionEvent where
  actionId : String
  occurredAt : ℚ
  seq : ℕ
  deriving DecidableEq

/-- Modelled from the spec: PatternStats for one (antecedent, consequent)
key; confidence is the derived ratio and is computed, not stored. -/
structure PatternStats where
  antecedentCount : ℚ
  episodeCount : ℚ
  lastSeenAt : ℚ
  feedbackWeight : ℚ
  deriving DecidableEq

/-- A pattern key: (antecedent, consequent) action identifiers. -/
abbrev PatternKey := String × String

/-- Look a key up in the association-list Pattern Store. -/
def lookupStats (k : PatternKey) : List (PatternKey × PatternStats) → Option PatternStats
  | [] => none
  | kp :: rest => if kp.1 = k then some kp.2 else lookupStats k rest

/-- Modelled from the spec: is prior event a inside the lookback window of
new event e.  Following the window-boundary testable property, an
antecedent at exactly W before e is excluded, as is one at e's own time. -/
def inWindow (e a : ActionEvent) : Bool :=
  qlt (qsub e.occurredAt lookbackW) a.occurredAt && qlt a.occurredAt e.occurredAt

/-- Modelled from the spec: b is a strictly later occurrence of the same
action as a (ties on the timestamp broken by sequence number). -/
def laterOcc (a b : ActionEvent) : Bool :=
  decide (b.actionId = a.actionId) &&
    (qlt a.occurredAt b.occurredAt ||
      (decide (a.occurredAt = b.occurredAt) && decide (a.seq < b.seq)))

/-- Modelled from the spec: the Window Index candidate set for a new event:
prior events inside the lookback window, restricted to the most recent
occurrence of each distinct antecedent action. -/
def candidates (win : List ActionEvent) (e : ActionEvent) : List ActionEvent :=
  let inWin := win.filter (fun a => inWindow e a)
  inWin.filter (fun a => !inWin.any (fun b => laterOcc a b))

/-- Modelled from the spec: ring-buffer style lazy eviction; on arrival of
e, entries older than W relative to e are dropped and e is inserted. -/
def insertWindow (e : ActionEvent) (win : List ActionEvent) : List ActionEvent :=
  e :: win.filter (fun a => qle (qsub e.occurredAt a.occurredAt) lookbackW)

/-- Modelled from the spec: the Pattern Miner state: the Window Index, the
per-antecedent occurrence support (the shared count behind the spec's
PatternStats[(a, *)].antecedentCount increments, which a newly created
(a, c) entry inherits so that confidence stays well-formed), and the
Pattern Store (an association list keyed by pattern). -/
structure MinerState where
  window : List ActionEvent
  support : List (String × ℚ)
  store : List (PatternKey × PatternStats)
  deriving DecidableEq

/-- The empty miner state. -/
def initState : MinerState := { window := [], support := [], store := [] }

/-- Look an antecedent up in the support map. -/
def lookupSupport (a : String) : List (String × ℚ) → Option ℚ
  | [] => none
  | sv :: rest => if sv.1 = a then some sv.2 else lookupSupport a rest

/-- Modelled from the spec: count one more occurrence of an antecedent
action serving as a window candidate. -/
def bumpSupport (m : List (String × ℚ)) (aId : String) : List (String × ℚ) :=
  match lookupSupport aId m with
  | some _ => m.map (fun sv => if sv.1 = aId then (sv.1, qadd sv.2 1) else sv)
  | none => (aId, 1) :: m

/-- Modelled from the spec: per-event store update of one stored entry.
For each candidate antecedent its antecedentCount rises once for this
event (not once per candidate pair), and the (antecedent, consequent)
entry of this event additionally counts one episode and refreshes
lastSeenAt. -/
def bumpEntry (t : ℚ) (anteIds : List String) (consequent : String)
    (kp : PatternKey × PatternStats) : PatternKey × PatternStats :=
  if kp.1.1 ∈ anteIds then
    if kp.1.2 = consequent then
      (kp.1, { kp.2 with antecedentCount := qadd kp.2.antecedentCount 1,
                         episodeCount := qadd kp.2.episodeCount 1,
                         lastSeenAt := t })
    else
      (kp.1, { kp.2 with antecedentCount := qadd kp.2.antecedentCount 1 })
  else kp

/-- Modelled from the spec: a pattern entry created by its first episode;
it inherits the antecedent's accumulated occurrence support so that the
shared antecedentCount stays well-formed across all (a, c) keys. -/
def freshStats (t sup : ℚ) : PatternStats :=
  { antecedentCount := sup, episodeCount := 1, lastSeenAt := t, feedbackWeight := 1 }

/-- Modelled from the spec: create the (antecedent, consequent) entry when
this event produced its first episode. -/
def insertFresh (t : ℚ) (consequent : String) (support : List (String × ℚ))
    (store : List (PatternKey × PatternStats)) (aId : String) :
    List (PatternKey × PatternStats) :=
  if (lookupStats (aId, consequent) store).isSome then store
  else ((aId, consequent), freshStats t ((lookupSupport aId support).getD 1)) :: store

/-- Modelled from the spec: Pattern Miner onEvent.  Steps: query the Window
Index for candidate antecedents, update episode and antecedent counts and
lastSeenAt in the Pattern Store, then insert the event into the Window
Index. -/
def onEvent (st : MinerState) (e : ActionEvent) : MinerState :=
  let cands := candidates st.window e
  let anteIds := cands.map (fun a => a.actionId)
  let support2 := anteIds.foldl bumpSupport st.support
  let store1 := st.store.map (bumpEntry e.occurredAt anteIds e.actionId)
  let store2 := anteIds.foldl (insertFresh e.occurredAt e.actionId support2) store1
  { window := insertWindow e st.window, support := support2, store := store2 }

/-- Replay a log through onEvent starting from a given state. -/
def replayLog : MinerState → List ActionEvent → MinerState
  | s, [] => s
  | s, e :: rest => replayLog (onEvent s e) rest

/-- Modelled from the spec: rebuild discards the store and replays the
entire Event Log from scratch. -/
def rebuild (log : List ActionEvent) : MinerState := replayLog initState log

/-- Incremental processing: fold onEvent over the events as they arrive. -/
def processAll (log : List ActionEvent) : MinerState := log.foldl onEvent initState

/-- Modelled from the spec: confidence = episodeCount / antecedentCount,
taken as 0 for an empty antecedent count. -/
def confidence (p : PatternStats) : ℚ :=
  if p.antecedentCount = 0 then 0 else qdiv p.episodeCount p.antecedentCount

/-- Modelled from the spec: a pattern is actionable when its support and
confidence clear the thresholds. -/
def actionable (p : PatternStats) : Bool :=
  qle minSupport p.antecedentCount && qle minConfidence (confidence p)

/-- Modelled from the spec: a Suggestion as emitted by the ranker. -/
structure Suggestion where
  antecedent : String
  consequent : String
  score : ℚ
  message : String
  emittedAt : ℚ
  deriving DecidableEq

/-- Modelled from the spec: the ranking score of a pattern, confidence
times feedbackWeight times recencyBoost(lastSeenAt); the recency boost
function is left abstract by the spec and is a parameter rb here. -/
def rankScore (rb : ℚ → ℚ) (p : PatternStats) : ℚ :=
  qmul (qmul (confidence p) p.feedbackWeight) (rb p.lastSeenAt)

/-- Modelled from the spec: the cooldown cache test: the key was already
suggested within the last C seconds. -/
def cooledDown (cache : List (PatternKey × ℚ)) (now : ℚ) (k : PatternKey) : Bool :=
  cache.any (fun ke => decide (ke.1 = k) && qlt (qsub now ke.2) cooldownC)

/-- Modelled from the spec: ranking order: descending score, ties broken by
higher episodeCount, then by consequent identifier for determinism. -/
def rankBefore (rb : ℚ → ℚ) (x y : PatternKey × PatternStats) : Bool :=
  qlt (rankScore rb y.2) (rankScore rb x.2) ||
    (decide (rankScore rb x.2 = rankScore rb y.2) &&
      (qlt y.2.episodeCount x.2.episodeCount ||
        (decide (y.2.episodeCount = x.2.episodeCount) && !decide (y.1.2 < x.1.2))))

/-- Insertion into a ranked list. -/
def insertRanked (before : α → α → Bool) (x : α) : List α → List α
  | [] => [x]
  | y :: ys => if before x y then x :: y :: ys else y :: insertRanked before x ys

/-- Insertion sort by a ranking predicate. -/
def sortRanked (before : α → α → Bool) : List α → List α
  | [] => []
  | x :: xs => insertRanked before x (sortRanked before xs)

/-- Modelled from the spec: Suggestion Ranker suggestFor.  Fetch the
actionable patterns keyed by the last action, drop pairs still cooling
down, sort by score with the deterministic tie-breaks, truncate to top-K
and emit Suggestions. -/
def suggestFor (rb : ℚ → ℚ) (now : ℚ) (cache : List (PatternKey × ℚ))
    (st : MinerState) (lastAction : String) : List Suggestion :=
  let acts := st.store.filter (fun kp => decide (kp.1.1 = lastAction) && actionable kp.2)
  let fresh := acts.filter (fun kp => !cooledDown cache now kp.1)
  let ranked := sortRanked (rankBefore rb) fresh
  (ranked.take topK).map (fun kp =>
    { antecedent := kp.1.1, consequent := kp.1.2, score := rankScore rb kp.2,
      message := kp.1.2, emittedAt := now })

/-- Modelled from the spec: a user decision on a suggestion. -/
inductive Decision where
  | accepted
  | dismissed

/-- Modelled from the spec: the feedback weight update: times 1.2 capped at
2.0 on accept, times 0.8 floored at 0.1 on dismiss. -/
def adjustWeight : Decision → ℚ → ℚ
  | .accepted, w => qmin 2 (qmul w (mkRat 6 5))
  | .dismissed, w => qmax (mkRat 1 10) (qmul w (mkRat 4 5))

/-- Modelled from the spec: Feedback Adjuster record.  A missing key
(UnknownPattern) is a no-op, as the spec instructs callers to treat it. -/
def record (k : PatternKey) (d : Decision) (st : MinerState) : MinerState :=
  { st with store := st.store.map (fun kp =>
      if kp.1 = k then
        (kp.1, { kp.2 with feedbackWeight := adjustWeight d kp.2.feedbackWeight })
      else kp) }

/-- Modelled from the spec: one decay pass with a given multiplicative
factor d (standing for exp(-lambda * elapsed), a value in (0, 1]); both
counts are scaled and entries whose counts fall below the prune floor are
removed. -/
def applyDecay (d : ℚ) (st : MinerState) : MinerState :=
  { st with store := st.store.filterMap (fun kp =>
      let p2 : PatternStats :=
        { kp.2 with antecedentCount := qmul kp.2.antecedentCount d,
                    episodeCount := qmul kp.2.episodeCount d }
      if qlt p2.antecedentCount pruneFloor && qlt p2.episodeCount pruneFloor then none
      else some (kp.1, p2)) }

/-- Modelled from the spec: one step of the Pattern Store life cycle: an
incoming event, a decay tick with factor exp(-lambda * elapsed) in (0, 1],
a feedback record, or a rebuild from a log. -/
inductive MinerStep : MinerState → MinerState → Prop
  | event (st : MinerState) (e : ActionEvent) : MinerStep st (onEvent st e)
  | decay (st : MinerState) (d : ℚ) (h0 : 0 < d) (h1 : d ≤ 1) :
      MinerStep st (applyDecay d st)
  | feedback (st : MinerState) (k : PatternKey) (dec : Decision) :
      MinerStep st (record k dec st)
  | rebuildStep (st : MinerState) (log : List ActionEvent) : MinerStep st (rebuild log)

/-- A miner state reachable from the empty state by engine operations. -/
def Reachable (st : MinerState) : Prop := Relation.ReflTransGen MinerStep initState st

/-- Modelled from the spec: the two decaying counts of one pattern, over
the reals since the spec decays with a true exponential. -/
structure DecayCounts where
  antecedentCount : ℝ
  episodeCount : ℝ

/-- Modelled from the spec: exponential decay of both counts of a pattern
by exp(-lambda * elapsed). -/
noncomputable def decayCounts (lam dt : ℝ) (p : DecayCounts) : DecayCounts :=
  { antecedentCount := p.antecedentCount * Real.exp (-(lam * dt)),
    episodeCount := p.episodeCount * Real.exp (-(lam * dt)) }

/-- Modelled from the spec: a decay tick that prunes the pattern when its
counts fall below the 0.01 floor. -/
noncomputable def decayTick (lam dt : ℝ) (p : DecayCounts) : Option DecayCounts :=
  let p2 := decayCounts lam dt p
  if p2.antecedentCount < 1 / 100 ∧ p2.episodeCount < 1 / 100 then none else some p2

/-- Concrete six-event scenario of the spec: A and B alternating at 0, 10,
60, 70, 130 and 140 seconds. -/
def scenarioEvents : List ActionEvent :=
  [{ actionId := "A", occurredAt := 0, seq := 0 },
   { actionId := "B", occurredAt := 10, seq := 1 },
   { actionId := "A", occurredAt := 60, seq := 2 },
   { actionId := "B", occurredAt := 70, seq := 3 },
   { actionId := "A", occurredAt := 130, seq := 4 },
   { actionId := "B", occurredAt := 140, seq := 5 }]

/-- The miner state after the scenario's six events. -/
def scenarioState : MinerState := processAll scenarioEvents

/-- The local store invariant behind the confidence bounds: episode counts
are nonnegative and bounded by the antecedent counts, and support entries
are at least one. -/
def StoreInv (st : MinerState) : Prop :=
  (∀ kp ∈ st.store, 0 ≤ kp.2.episodeCount ∧ kp.2.episodeCount ≤ kp.2.antecedentCount) ∧
  (∀ sv ∈ st.support, 1 ≤ sv.2)

/-- An A event at time 0, sequence 0. -/
def evA0 : ActionEvent := { actionId := "A", occurredAt := 0, seq := 0 }

/-- A B event at time 10, sequence 1. -/
def evB10 : ActionEvent := { actionId := "B", occurredAt := 10, seq := 1 }

/-- A B event at exactly the window length after evA0. -/
def evB120 : ActionEvent := { actionId := "B", occurredAt := 120, seq := 1 }

/-- The miner state after the two events evA0 and evB10. -/
def minerPairState : MinerState := onEvent (onEvent initState evA0) evB10

/-- A one-pattern store whose feedback weight is the creation default 1. -/
def fbState : MinerState :=
  { window := [],
    support := [("A", 3)],
    store := [(("A", "B"),
      { antecedentCount := 3, episodeCount := 3, lastSeenAt := 0, feedbackWeight := 1 })] }

/-- A pattern with both counts 1, for the decay claims. -/
def unitCounts : DecayCounts := { antecedentCount := 1, episodeCount := 1 }

/-- A stored gift whose id field holds an empty array: a truthy value whose
string coercion is empty. -/
def weirdGift : GiftObj :=
  { id := vArr .nil, name := vUndefined, recipient := vUndefined, category := vUndefined,
    priority := vUndefined, price := vUndefined, link := vUndefined, notes := vUndefined,
    purchased := vUndefined, added := vUndefined }

/-- A well-formed gift as the starter list provides. -/
def starterGift : GiftObj :=
  { id := vStr "gift-w-1", name := vStr "Sunrise coffee tasting basket",
    recipient := vStr "wife", category := vStr "wellness", priority := vStr "High",
    price := vNum (.val 95), link := vStr "https://www.craftcoffee.com",
    notes := vStr "Include her favorite Ethiopian roast.", purchased := vBool false,
    added := vStr "2024-01-12T09:00:00.000Z" }

/-- The A-to-B pattern entry as the two events evA0 and evB10 create it. -/
def pairStatsAB : PatternStats :=
  { antecedentCount := 1, episodeCount := 1, lastSeenAt := 10, feedbackWeight := 1 }

/-! ## Bridge lemmas for the executable rational helpers -/

/-- The cast denominator of a rational is positive. -/
theorem den_cast_pos (a : ℚ) : (0 : ℚ) < (a.den : ℚ) := by
  exact_mod_cast a.pos

/-- qadd is addition. -/
theorem qadd_eq (a b : ℚ) : qadd a b = a + b := by
  rw [qadd, Rat.mkRat_eq_div]
  have ha : ((a.den : ℚ)) ≠ 0 := ne_of_gt (den_cast_pos a)
  have hb : ((b.den : ℚ)) ≠ 0 := ne_of_gt (den_cast_pos b)
  conv_rhs => rw [← Rat.num_div_den a, ← Rat.num_div_den b]
  push_cast
  field_simp

/-- qsub is subtraction. -/
theorem qsub_eq (a b : ℚ) : qsub a b = a - b := by
  rw [qsub, Rat.mkRat_eq_div]
  have ha : ((a.den : ℚ)) ≠ 0 := ne_of_gt (den_cast_pos a)
  have hb : ((b.den : ℚ)) ≠ 0 := ne_of_gt (den_cast_pos b)
  conv_rhs => rw [← Rat.num_div_den a, ← Rat.num_div_den b]
  push_cast
  field_simp
  ring

/-- qmul is multiplication. -/
theorem qmul_eq (a b : ℚ) : qmul a b = a * b := by
  rw [qmul, Rat.mkRat_eq_div]
  conv_rhs => rw [← Rat.num_div_den a, ← Rat.num_div_den b]
  push_cast
  rw [div_mul_div_comm]

/-- qdiv is division. -/
theorem qdiv_eq (a b : ℚ) : qdiv a b = a / b := by
  have ha : ((a.den : ℚ)) ≠ 0 := ne_of_gt (den_cast_pos a)
  rcases lt_trichotomy b.num 0 with hb | hb | hb
  · rw [qdiv, if_neg (not_le.mpr hb), Rat.mkRat_eq_div]
    have h1 : (((-b.num).toNat : ℕ) : ℚ) = -(b.num : ℚ) := by
      exact_mod_cast Int.toNat_of_nonneg (by omega : (0:ℤ) ≤ -b.num)
    push_cast [h1]
    conv_rhs => rw [← Rat.num_div_den a, ← Rat.num_div_den b]
    have hbn : ((b.num : ℚ)) ≠ 0 := by exact_mod_cast ne_of_lt hb
    have hbd : ((b.den : ℚ)) ≠ 0 := ne_of_gt (den_cast_pos b)
    field_simp
  · rw [qdiv, if_pos (le_of_eq hb.symm)]
    have hb0 : b = 0 := by
      rw [← Rat.num_div_den b, hb]
      norm_num
    subst hb0
    simp [Rat.mkRat_eq_div]
  · rw [qdiv, if_pos (le_of_lt hb), Rat.mkRat_eq_div]
    have h1 : ((b.num.toNat : ℕ) : ℚ) = (b.num : ℚ) := by
      exact_mod_cast Int.toNat_of_nonneg (le_of_lt hb)
    push_cast [h1]
    conv_rhs => rw [← Rat.num_div_den a, ← Rat.num_div_den b]
    have hbn : ((b.num : ℚ)) ≠ 0 := by exact_mod_cast ne_of_gt hb
    have hbd : ((b.den : ℚ)) ≠ 0 := ne_of_gt (den_cast_pos b)
    field_simp

/-- qle decides the order. -/
theorem qle_iff (a b : ℚ) : qle a b = true ↔ a ≤ b := by
  rw [qle, decide_eq_true_eq]
  constructor
  · intro h
    rw [← Rat.num_div_den a, ← Rat.num_div_den b,
      div_le_div_iff₀ (den_cast_pos a) (den_cast_pos b)]
    exact_mod_cast h
  · intro h
    rw [← Rat.num_div_den a, ← Rat.num_div_den b,
      div_le_div_iff₀ (den_cast_pos a) (den_cast_pos b)] at h
    exact_mod_cast h

/-- qlt decides the strict order. -/
theorem qlt_iff (a b : ℚ) : qlt a b = true ↔ a < b := by
  rw [qlt, decide_eq_true_eq]
  constructor
  · intro h
    rw [← Rat.num_div_den a, ← Rat.num_div_den b,
      div_lt_div_iff₀ (den_cast_pos a) (den_cast_pos b)]
    exact_mod_cast h
  · intro h
    rw [← Rat.num_div_den a, ← Rat.num_div_den b,
      div_lt_div_iff₀ (den_cast_pos a) (den_cast_pos b)] at h
    exact_mod_cast h

/-- qmax is the maximum. -/
theorem qmax_eq (a b : ℚ) : qmax a b = max a b := by
  rw [qmax, max_comm]
  rcases le_or_lt a b with h | h
  · rw [if_pos ((qle_iff a b).mpr h), max_eq_left h]
  · rw [if_neg (by rw [qle_iff]; exact not_le.mpr h), max_eq_right (le_of_lt h)]

/-- qmin is the minimum. -/
theorem qmin_eq (a b : ℚ) : qmin a b = min a b := by
  rw [qmin]
  rcases le_or_lt a b with h | h
  · rw [if_pos ((qle_iff a b).mpr h), min_eq_left h]
  · rw [if_neg (by rw [qle_iff]; exact not_le.mpr h), min_eq_right (le_of_lt h)]

/-- The half literal. -/
theorem mkRat_half : (mkRat 1 2 : ℚ) = 1 / 2 := by
  rw [Rat.mkRat_eq_div]
  norm_num

/-- The feedback floor literal. -/
theorem mkRat_tenth : (mkRat 1 10 : ℚ) = 1 / 10 := by
  rw [Rat.mkRat_eq_div]
  norm_num

/-- The dismiss factor literal. -/
theorem mkRat_four_fifths : (mkRat 4 5 : ℚ) = 4 / 5 := by
  rw [Rat.mkRat_eq_div]
  norm_num

/-- The accept factor literal. -/
theorem mkRat_six_fifths : (mkRat 6 5 : ℚ) = 6 / 5 := by
  rw [Rat.mkRat_eq_div]
  norm_num

/-! ## Gift registry lemmas and claims -/

/-- Re-applying a JavaScript or-default is the identity. -/
theorem jsOr_same (v d : JSValue) : jsOr (jsOr v d) d = jsOr v d := by
  unfold jsOr
  by_cases h : jsTruthy v
  · simp [h]
  · simp [h]

/-- The recipient switch only ever answers wife or kids. -/
theorem recipientSwitch_range (s : String) :
    recipientSwitch s = "wife" ∨ recipientSwitch s = "kids" := by
  unfold recipientSwitch
  split_ifs <;> simp

/-- normalizeRecipient only ever answers wife or kids. -/
theorem normalizeRecipient_range (v : JSValue) :
    normalizeRecipient v = "wife" ∨ normalizeRecipient v = "kids" := by
  unfold normalizeRecipient
  exact recipientSwitch_range _

/-- The switch answers wife exactly on the three wife spellings. -/
theorem recipientSwitch_wife_iff (s : String) :
    recipientSwitch s = "wife" ↔ (s = "wife" ∨ s = "mom" ∨ s = "spouse") := by
  unfold recipientSwitch
  split_ifs with h1 h2 h3
  · exact iff_of_true rfl h1
  · exact iff_of_false (by decide) h1
  · exact iff_of_false (by decide) h1
  · exact iff_of_false (by decide) h1

/-- A string input maps to wife exactly when it lower-cases to one of the
three wife spellings. -/
theorem normalizeRecipient_wife_iff (s : String) :
    normalizeRecipient (vStr s) = "wife" ↔
      (lowerString s = "wife" ∨ lowerString s = "mom" ∨ lowerString s = "spouse") := by
  by_cases hs : s = ""
  · subst hs
    rw [show normalizeRecipient (vStr "") = "kids" from rfl]
    constructor
    · intro h
      exact absurd h (by decide)
    · intro h
      rcases h with h | h | h <;> exact absurd h (by decide)
  · have hor : jsOr (vStr s) (vStr "") = vStr s := by
      unfold jsOr jsTruthy
      simp [hs]
    unfold normalizeRecipient
    rw [hor]
    exact recipientSwitch_wife_iff (lowerString s)

/-- C8: normalizeRecipient is total and always answers the string wife or
the string kids; null, undefined, the empty string and the value dad all
map to kids, and a string maps to wife exactly when it lower-cases to
wife, mom or spouse. -/
theorem c8_normalizeRecipient_total_range :
    (∀ v : JSValue, normalizeRecipient v = "wife" ∨ normalizeRecipient v = "kids") ∧
    normalizeRecipient vNull = "kids" ∧
    normalizeRecipient vUndefined = "kids" ∧
    normalizeRecipient (vStr "") = "kids" ∧
    normalizeRecipient (vStr "dad") = "kids" ∧
    normalizeRecipient (vStr "WIFE") = "wife" ∧
    normalizeRecipient (vStr "Spouse") = "wife" ∧
    (∀ s : String, normalizeRecipient (vStr s) = "wife" ↔
      (lowerString s = "wife" ∨ lowerString s = "mom" ∨ lowerString s = "spouse")) :=
  ⟨normalizeRecipient_range, rfl, rfl, rfl, rfl, rfl, rfl, normalizeRecipient_wife_iff⟩

/-- normalizePrice always produces a finite number or null. -/
theorem normalizePrice_shape (v : JSValue) :
    (∃ q : ℚ, normalizePrice v = vNum (.val q)) ∨ normalizePrice v = vNull := by
  cases v with
  | vNum n =>
    cases n with
    | val q => exact Or.inl ⟨q, rfl⟩
    | nan => exact Or.inr rfl
    | inf => exact Or.inr rfl
    | ninf => exact Or.inr rfl
  | vNull => exact Or.inr rfl
  | vUndefined => exact Or.inr rfl
  | vStr s =>
    simp only [normalizePrice]
    by_cases hs : s = ""
    · rw [if_pos hs]
      exact Or.inr rfl
    · rw [if_neg hs]
      rcases hp : parseNumber s with q | _ | _ | _
      · exact Or.inl ⟨q, rfl⟩
      all_goals exact Or.inr rfl
  | vBool b =>
    simp only [normalizePrice]
    rcases hp : jsToNumber (vBool b) with q | _ | _ | _
    · exact Or.inl ⟨q, rfl⟩
    all_goals exact Or.inr rfl
  | vArr xs =>
    simp only [normalizePrice]
    rcases hp : jsToNumber (vArr xs) with q | _ | _ | _
    · exact Or.inl ⟨q, rfl⟩
    all_goals exact Or.inr rfl

/-- A string that does not parse to a finite number normalizes to null. -/
theorem normalizePrice_nonnumeric (s : String) (h : isFiniteNum (parseNumber s) = false) :
    normalizePrice (vStr s) = vNull := by
  simp only [normalizePrice]
  by_cases hs : s = ""
  · rw [if_pos hs]
  · rw [if_neg hs, h]
    simp

/-- normalizePrice is idempotent. -/
theorem normalizePrice_idem (v : JSValue) :
    normalizePrice (normalizePrice v) = normalizePrice v := by
  rcases normalizePrice_shape v with ⟨q, hq⟩ | hnull
  · rw [hq]
    rfl
  · rw [hnull]
    rfl

/-- C10: normalizePrice never returns NaN or an infinity: every result is
a finite number or null; NaN, the infinities, null, undefined, the empty
string and non-numeric strings all give null, and a finite number is
returned unchanged. -/
theorem c10_normalizePrice_finite_or_null :
    (∀ v : JSValue, (∃ q : ℚ, normalizePrice v = vNum (.val q)) ∨ normalizePrice v = vNull) ∧
    normalizePrice (vNum .nan) = vNull ∧
    normalizePrice (vNum .inf) = vNull ∧
    normalizePrice (vNum .ninf) = vNull ∧
    normalizePrice vNull = vNull ∧
    normalizePrice vUndefined = vNull ∧
    normalizePrice (vStr "") = vNull ∧
    normalizePrice (vStr "abc") = vNull ∧
    (∀ s : String, isFiniteNum (parseNumber s) = false → normalizePrice (vStr s) = vNull) ∧
    (∀ q : ℚ, normalizePrice (vNum (.val q)) = vNum (.val q)) :=
  ⟨normalizePrice_shape, rfl, rfl, rfl, rfl, rfl, rfl,
    normalizePrice_nonnumeric "abc" (by decide), normalizePrice_nonnumeric, fun _ => rfl⟩

/-- C9 counterexample: a gift whose id is an empty array — a truthy value
with empty string coercion — is enhanced to an object with empty id, and
re-enhancing replaces that id with a fresh random id, so enhanceGift is
not idempotent on all of its own outputs. -/
theorem c9_counterexample_enhanceGift_not_idempotent :
    ¬ enhanceGift "rid2" "2024-01-02T00:00:00.000Z"
        (enhanceGift "rid1" "2024-01-01T00:00:00.000Z" weirdGift) =
      enhanceGift "rid1" "2024-01-01T00:00:00.000Z" weirdGift := by
  intro h
  have hid := congrArg GiftObj.id h
  rw [show (enhanceGift "rid2" "2024-01-02T00:00:00.000Z"
      (enhanceGift "rid1" "2024-01-01T00:00:00.000Z" weirdGift)).id = vStr "rid2" from rfl,
    show (enhanceGift "rid1" "2024-01-01T00:00:00.000Z" weirdGift).id = vStr "" from rfl] at hid
  have h2 : "rid2" = "" := by injection hid
  exact absurd h2 (by decide)

/-- C9 amended: enhanceGift is idempotent on every output whose id field
is a nonempty string (equivalently, whenever the input id is falsy or
coerces to a nonempty string), granted the fresh timestamp string is
nonempty as toISOString always is; the only escape is an output with an
empty id, which receives a fresh random id on re-enhancement. -/
theorem c9_enhanceGift_idempotent_on_nonempty_id (rid1 now1 rid2 now2 : String)
    (g : GiftObj) (hid : jsToString (jsOr g.id (vStr rid1)) ≠ "")
    (hadded : jsTruthy g.added = true ∨ now1 ≠ "") :
    enhanceGift rid2 now2 (enhanceGift rid1 now1 g) = enhanceGift rid1 now1 g := by
  apply GiftObj.ext
  · show vStr (jsToString (jsOr (vStr (jsToString (jsOr g.id (vStr rid1)))) (vStr rid2))) = _
    have ht : jsTruthy (vStr (jsToString (jsOr g.id (vStr rid1)))) = true := by
      simp [jsTruthy, hid]
    rw [jsOr, if_pos ht]
    rfl
  · exact jsOr_same g.name (vStr "Untitled gift")
  · show vStr (normalizeRecipient (vStr (normalizeRecipient g.recipient))) =
      vStr (normalizeRecipient g.recipient)
    rcases normalizeRecipient_range g.recipient with h | h <;> rw [h] <;> rfl
  · exact jsOr_same g.category (vStr "experience")
  · exact jsOr_same g.priority (vStr "Medium")
  · exact normalizePrice_idem g.price
  · exact jsOr_same g.link (vStr "")
  · exact jsOr_same g.notes (vStr "")
  · show vBool (jsTruthy (vBool (jsTruthy g.purchased))) = _
    rfl
  · show jsOr (jsOr g.added (vStr now1)) (vStr now2) = jsOr g.added (vStr now1)
    by_cases h : jsTruthy g.added
    · have hOr : jsOr g.added (vStr now1) = g.added := by rw [jsOr, if_pos h]
      rw [hOr, jsOr, if_pos h]
    · rcases hadded with h2 | h2
      · exact absurd h2 h
      · have hOr : jsOr g.added (vStr now1) = vStr now1 := by rw [jsOr, if_neg h]
        have ht : jsTruthy (vStr now1) = true := by simp [jsTruthy, h2]
        rw [hOr, jsOr, if_pos ht]

/-- C9 witness: re-enhancing an enhanced starter gift changes nothing. -/
theorem c9_witness_starter_gift_idempotent :
    enhanceGift "r2" "2024-02-02T00:00:00.000Z"
        (enhanceGift "r1" "2024-01-01T00:00:00.000Z" starterGift) =
      enhanceGift "r1" "2024-01-01T00:00:00.000Z" starterGift :=
  c9_enhanceGift_idempotent_on_nonempty_id "r1" "2024-01-01T00:00:00.000Z" "r2"
    "2024-02-02T00:00:00.000Z" starterGift (by decide) (Or.inl rfl)

/-! ## Pattern miner lemmas and claims -/

/-- A left fold of onEvent is the replay recursion. -/
theorem foldl_eq_replayLog (log : List ActionEvent) (s : MinerState) :
    log.foldl onEvent s = replayLog s log := by
  induction log generalizing s with
  | nil => rfl
  | cons e rest ih => exact ih (onEvent s e)

/-- C1: replay equivalence: processing a sequence of events one at a time
with onEvent produces exactly the same state, and hence the same
PatternStats under every key, as rebuild applied to the log holding that
same sequence. -/
theorem c1_replay_equivalence (events : List ActionEvent) :
    processAll events = rebuild events ∧
    (∀ k : PatternKey,
      lookupStats k (processAll events).store = lookupStats k (rebuild events).store) := by
  have h : processAll events = rebuild events := foldl_eq_replayLog events initState
  exact ⟨h, fun k => by rw [h]⟩

/-- The window membership test, read back as an interval. -/
theorem inWindow_iff (e a : ActionEvent) :
    inWindow e a = true ↔
      (e.occurredAt - lookbackW < a.occurredAt ∧ a.occurredAt < e.occurredAt) := by
  rw [inWindow, Bool.and_eq_true, qlt_iff, qlt_iff, qsub_eq]

/-- The later-occurrence test, read back as a disjunction. -/
theorem laterOcc_iff (a b : ActionEvent) :
    laterOcc a b = true ↔
      (b.actionId = a.actionId ∧ (a.occurredAt < b.occurredAt ∨
        (a.occurredAt = b.occurredAt ∧ a.seq < b.seq))) := by
  rw [laterOcc, Bool.and_eq_true, Bool.or_eq_true, Bool.and_eq_true, qlt_iff,
    decide_eq_true_eq, decide_eq_true_eq, decide_eq_true_eq]

/-- Membership in the candidate set characterised: in the window's open
interval, and the most recent in-window occurrence of its action. -/
theorem mem_candidates_iff (win : List ActionEvent) (e a : ActionEvent) :
    a ∈ candidates win e ↔
      (a ∈ win ∧ (e.occurredAt - lookbackW < a.occurredAt ∧ a.occurredAt < e.occurredAt) ∧
        ∀ b ∈ win,
          (e.occurredAt - lookbackW < b.occurredAt ∧ b.occurredAt < e.occurredAt) →
          b.actionId = a.actionId →
          ¬(a.occurredAt < b.occurredAt ∨
            (a.occurredAt = b.occurredAt ∧ a.seq < b.seq))) := by
  unfold candidates
  rw [List.mem_filter, List.mem_filter]
  constructor
  · rintro ⟨⟨hmem, hwin⟩, hlater⟩
    refine ⟨hmem, (inWindow_iff e a).mp hwin, ?_⟩
    intro b hb hbwin hbid hba
    rw [Bool.not_eq_true', ← Bool.not_eq_true, List.any_eq_true] at hlater
    exact hlater ⟨b, List.mem_filter.mpr ⟨hb, (inWindow_iff e b).mpr hbwin⟩,
      (laterOcc_iff a b).mpr ⟨hbid, hba⟩⟩
  · rintro ⟨hmem, hwin, hnone⟩
    refine ⟨⟨hmem, (inWindow_iff e a).mpr hwin⟩, ?_⟩
    rw [Bool.not_eq_true', ← Bool.not_eq_true, List.any_eq_true]
    rintro ⟨b, hb, hlater⟩
    rw [List.mem_filter] at hb
    rcases (laterOcc_iff a b).mp hlater with ⟨hbid, hba⟩
    exact hnone b hb.1 ((inWindow_iff e b).mp hb.2) hbid hba

/-- C3 counterexample: an antecedent at exactly W before the new event is
excluded from the candidate set although it lies inside the half-open
interval the spec states for the Window Index, so the claimed equivalence
with that interval fails at the left endpoint. -/
theorem c3_counterexample_boundary_interval_mismatch :
    candidates [evA0] evB120 = [] ∧
    evB120.occurredAt - lookbackW ≤ evA0.occurredAt ∧
    evA0.occurredAt < evB120.occurredAt ∧
    evB120.occurredAt = evA0.occurredAt + lookbackW := by
  refine ⟨by decide, ?_, ?_, ?_⟩
  · show (120 : ℚ) - 120 ≤ 0
    norm_num
  · show (0 : ℚ) < 120
    norm_num
  · show (120 : ℚ) = 0 + 120
    norm_num

/-- C3 amended: a consequent at exactly W after the antecedent is excluded
and one strictly inside is included; the candidate set is exactly the
prior events in the open interval from occurredAt minus W to occurredAt,
restricted to the most recent occurrence of each distinct action. -/
theorem c3_window_boundary (win : List ActionEvent) (e a : ActionEvent) :
    (a ∈ candidates win e ↔
      (a ∈ win ∧ (e.occurredAt - lookbackW < a.occurredAt ∧ a.occurredAt < e.occurredAt) ∧
        ∀ b ∈ win,
          (e.occurredAt - lookbackW < b.occurredAt ∧ b.occurredAt < e.occurredAt) →
          b.actionId = a.actionId →
          ¬(a.occurredAt < b.occurredAt ∨
            (a.occurredAt = b.occurredAt ∧ a.seq < b.seq)))) ∧
    (e.occurredAt = a.occurredAt + lookbackW → a ∉ candidates win e) := by
  refine ⟨mem_candidates_iff win e a, fun hW hmem => ?_⟩
  rcases (mem_candidates_iff win e a).mp hmem with ⟨-, ⟨hlt, -⟩, -⟩
  rw [hW] at hlt
  simp at hlt

/-- C2 counterexample: on the spec's own six-event scenario the ranker
does return the single pair A to B, but its confidence is 3/5, not the
claimed 1.0: each of the five window passes over an A or B occurrence
raises the pair's antecedent count, while only three episodes occur. -/
theorem c2_counterexample_confidence_not_one :
    ((suggestFor (fun _ => 1) 140 [] scenarioState "A").map
      (fun s => (s.antecedent, s.consequent)) = [("A", "B")]) ∧
    (lookupStats ("A", "B") scenarioState.store).map confidence = some (mkRat 3 5) ∧
    ¬ (lookupStats ("A", "B") scenarioState.store).map confidence = some 1 := by
  refine ⟨?_, by decide, by decide⟩
  decide

/-- C2 amended: after the scenario's six events, suggestFor on A returns,
for every recency boost and query time, exactly one suggestion, with
antecedent A and consequent B; the confidence of that pattern is 3/5
rather than 1.0. -/
theorem c2_scenario_single_suggestion (rb : ℚ → ℚ) (now : ℚ) :
    ((suggestFor rb now [] scenarioState "A").map
      (fun s => (s.antecedent, s.consequent)) = [("A", "B")]) ∧
    (lookupStats ("A", "B") scenarioState.store).map confidence = some (mkRat 3 5) ∧
    mkRat 3 5 ≠ 1 := by
  have hfilter : scenarioState.store.filter
      (fun kp => decide (kp.1.1 = "A") && actionable kp.2) =
      [(("A", "B"),
        { antecedentCount := 5, episodeCount := 3, lastSeenAt := 140, feedbackWeight := 1 })] := by
    decide
  refine ⟨?_, by decide, by decide⟩
  simp only [suggestFor]
  rw [hfilter]
  rfl

/-- Looking up through a keyed feedback update maps the stored entry. -/
theorem lookupStats_map_update (k : PatternKey) (f : PatternStats → PatternStats)
    (l : List (PatternKey × PatternStats)) :
    lookupStats k (l.map (fun kp => if kp.1 = k then (kp.1, f kp.2) else kp)) =
      (lookupStats k l).map f := by
  induction l with
  | nil => rfl
  | cons kp rest ih =>
    by_cases h : kp.1 = k
    · simp only [List.map_cons, if_pos h, lookupStats, h, if_true, Option.map_some]
      rfl
    · simp only [List.map_cons, if_neg h, lookupStats, if_neg h]
      exact ih

/-- One feedback record maps the addressed pattern's weight. -/
theorem lookupStats_record (k : PatternKey) (d : Decision) (st : MinerState) :
    lookupStats k (record k d st).store =
      (lookupStats k st.store).map
        (fun p => { p with feedbackWeight := adjustWeight d p.feedbackWeight }) :=
  lookupStats_map_update k (fun p => { p with feedbackWeight := adjustWeight d p.feedbackWeight })
    st.store

/-- Iterated feedback records map the addressed pattern's weight. -/
theorem lookupStats_record_iter (k : PatternKey) (d : Decision) (st : MinerState) (n : ℕ) :
    lookupStats k (((record k d)^[n]) st).store =
      (lookupStats k st.store).map
        ((fun p => { p with feedbackWeight := adjustWeight d p.feedbackWeight })^[n]) := by
  induction n with
  | zero => simp
  | succ m ih =>
    rw [Function.iterate_succ_apply', lookupStats_record, ih, Option.map_map,
      ← Function.iterate_succ']

/-- Iterating the weight update only iterates on the weight field. -/
theorem fwUpdate_iter (d : Decision) (n : ℕ) (p : PatternStats) :
    ((fun p => { p with feedbackWeight := adjustWeight d p.feedbackWeight })^[n]) p =
      { p with feedbackWeight := ((adjustWeight d)^[n]) p.feedbackWeight } := by
  induction n generalizing p with
  | zero => rfl
  | succ m ih =>
    rw [Function.iterate_succ_apply, Function.iterate_succ_apply, ih]

/-- The dismiss update in ordinary arithmetic. -/
theorem dismissW_eq (w : ℚ) :
    adjustWeight Decision.dismissed w = max (1/10 : ℚ) (w * (4/5)) := by
  show qmax (mkRat 1 10) (qmul w (mkRat 4 5)) = _
  rw [qmax_eq, qmul_eq, mkRat_tenth, mkRat_four_fifths]

/-- Iterated dismissals in closed form: the floor absorbs the geometric
factor. -/
theorem dismiss_iter_formula (n : ℕ) : ∀ w : ℚ,
    ((adjustWeight Decision.dismissed)^[n + 1]) w = max (1/10 : ℚ) (w * (4/5) ^ (n + 1)) := by
  induction n with
  | zero =>
    intro w
    rw [Function.iterate_one, dismissW_eq]
    norm_num
  | succ m ih =>
    intro w
    rw [Function.iterate_succ_apply, dismissW_eq, ih,
      max_mul_of_nonneg _ _ (by positivity : (0:ℚ) ≤ (4/5) ^ (m + 1)), ← max_assoc]
    have h1 : max (1/10 : ℚ) ((1/10) * (4/5) ^ (m + 1)) = 1/10 := by
      rw [max_eq_left]
      exact mul_le_of_le_one_right (by norm_num)
        (pow_le_one₀ (by norm_num) (by norm_num))
    rw [h1, mul_assoc, ← pow_succ']

/-- Iterated dismissals never fall under the floor. -/
theorem dismiss_iter_ge (n : ℕ) (w : ℚ) (hw : 1/10 ≤ w) :
    (1/10 : ℚ) ≤ ((adjustWeight Decision.dismissed)^[n]) w := by
  cases n with
  | zero => exact hw
  | succ m =>
    rw [dismiss_iter_formula]
    exact le_max_left _ _

/-- C5 counterexample: from the creation default weight 1, five dismissals
leave the weight at 1024/3125, about 0.328, not at the 0.1 floor, so five
dismissals do not floor the weight from every start in the unit range. -/
theorem c5_counterexample_five_dismissals_from_default :
    (lookupStats ("A", "B")
        (((record ("A", "B") Decision.dismissed)^[5]) fbState).store).map
      (fun p => p.feedbackWeight) = some (mkRat 1024 3125) ∧
    ¬ (lookupStats ("A", "B")
        (((record ("A", "B") Decision.dismissed)^[5]) fbState).store).map
      (fun p => p.feedbackWeight) = some (mkRat 1 10) := by
  constructor
  · decide
  · decide

/-- C5 amended: five consecutive dismissals take the weight to the maximum
of the 0.1 floor and the start times 0.8 to the fifth — reaching exactly
0.1 only when the start is at most 0.1 times 1.25 to the fifth — and no
number of dismissals ever takes the weight below 0.1. -/
theorem c5_dismiss_floor (st : MinerState) (k : PatternKey) (p : PatternStats)
    (hp : lookupStats k st.store = some p)
    (h1 : 1/10 ≤ p.feedbackWeight) (h2 : p.feedbackWeight ≤ 2) :
    (lookupStats k (((record k Decision.dismissed)^[5]) st).store =
      some { p with feedbackWeight := max (1/10 : ℚ) (p.feedbackWeight * (4/5) ^ 5) }) ∧
    (∀ n : ℕ, ∃ pn : PatternStats,
      lookupStats k (((record k Decision.dismissed)^[n]) st).store = some pn ∧
        (1/10 : ℚ) ≤ pn.feedbackWeight) := by
  constructor
  · rw [lookupStats_record_iter, hp, Option.map_some', fwUpdate_iter,
      dismiss_iter_formula]
  · intro n
    refine ⟨{ p with feedbackWeight := ((adjustWeight Decision.dismissed)^[n]) p.feedbackWeight },
      ?_, dismiss_iter_ge n p.feedbackWeight h1⟩
    rw [lookupStats_record_iter, hp, Option.map_some', fwUpdate_iter]

/-- C5 witness: the floor behaviour at the concrete one-pattern store. -/
theorem c5_witness_five_dismissals :
    (lookupStats ("A", "B")
        (((record ("A", "B") Decision.dismissed)^[5]) fbState).store =
      some { antecedentCount := 3, episodeCount := 3, lastSeenAt := 0,
             feedbackWeight := max (1/10 : ℚ) (1 * (4/5) ^ 5) }) ∧
    (∀ n : ℕ, ∃ pn : PatternStats,
      lookupStats ("A", "B") (((record ("A", "B") Decision.dismissed)^[n]) fbState).store =
        some pn ∧ (1/10 : ℚ) ≤ pn.feedbackWeight) :=
  c5_dismiss_floor fbState ("A", "B")
    { antecedentCount := 3, episodeCount := 3, lastSeenAt := 0, feedbackWeight := 1 }
    (by decide) (by norm_num) (by norm_num)

/-- C7: when no stored pattern keyed by the queried action clears both the
support and the confidence thresholds, suggestFor returns the empty list;
being a total function, it raises no error. -/
theorem c7_no_actionable_empty (rb : ℚ → ℚ) (now : ℚ) (cache : List (PatternKey × ℚ))
    (st : MinerState) (lastAction : String)
    (h : ∀ kp ∈ st.store, kp.1.1 = lastAction → actionable kp.2 = false) :
    suggestFor rb now cache st lastAction = [] := by
  have hfilter : st.store.filter
      (fun kp => decide (kp.1.1 = lastAction) && actionable kp.2) = [] := by
    rw [List.filter_eq_nil_iff]
    intro kp hkp
    rw [Bool.and_eq_true, decide_eq_true_eq, not_and]
    intro heq
    rw [h kp hkp heq]
    exact Bool.false_ne_true
  simp only [suggestFor]
  rw [hfilter]
  rfl

/-- C7 witness: after only two events no pattern clears the support
threshold and the suggestion list is empty. -/
theorem c7_witness_below_support :
    suggestFor (fun _ => 1) 20 [] minerPairState "A" = [] :=
  c7_no_actionable_empty (fun _ => 1) 20 [] minerPairState "A" (by decide)

/-! ## Store invariant and the confidence bounds -/

/-- A successful lookup exhibits a stored entry. -/
theorem lookupStats_mem {k : PatternKey} {p : PatternStats}
    {l : List (PatternKey × PatternStats)} (h : lookupStats k l = some p) :
    ∃ kp ∈ l, kp.1 = k ∧ kp.2 = p := by
  induction l with
  | nil => exact absurd h (by simp [lookupStats])
  | cons kp rest ih =>
    rw [lookupStats] at h
    by_cases heq : kp.1 = k
    · rw [if_pos heq] at h
      exact ⟨kp, List.mem_cons_self kp rest, heq, Option.some.inj h⟩
    · rw [if_neg heq] at h
      rcases ih h with ⟨kp2, hmem, hk, hp2⟩
      exact ⟨kp2, List.mem_cons_of_mem kp hmem, hk, hp2⟩

/-- A successful support lookup exhibits a stored entry. -/
theorem lookupSupport_mem {a : String} {s : ℚ} {m : List (String × ℚ)}
    (h : lookupSupport a m = some s) : ∃ sv ∈ m, sv.2 = s := by
  induction m with
  | nil => exact absurd h (by simp [lookupSupport])
  | cons sv rest ih =>
    rw [lookupSupport] at h
    by_cases heq : sv.1 = a
    · rw [if_pos heq] at h
      exact ⟨sv, List.mem_cons_self sv rest, Option.some.inj h⟩
    · rw [if_neg heq] at h
      rcases ih h with ⟨sv2, hmem, hs2⟩
      exact ⟨sv2, List.mem_cons_of_mem sv hmem, hs2⟩

/-- One support bump keeps every support value at least one. -/
theorem bumpSupport_inv {m : List (String × ℚ)} (hm : ∀ sv ∈ m, 1 ≤ sv.2)
    (aId : String) : ∀ sv ∈ bumpSupport m aId, 1 ≤ sv.2 := by
  intro sv hsv
  rw [bumpSupport] at hsv
  rcases hl : lookupSupport aId m with _ | s
  · rw [hl] at hsv
    rcases List.mem_cons.mp hsv with h | h
    · simp [h]
    · exact hm sv h
  · rw [hl] at hsv
    rcases List.mem_map.mp hsv with ⟨sv0, hmem0, hmap⟩
    by_cases heq : sv0.1 = aId
    · rw [if_pos heq] at hmap
      rw [← hmap]
      show (1:ℚ) ≤ qadd sv0.2 1
      rw [qadd_eq]
      have := hm sv0 hmem0
      linarith
    · rw [if_neg heq] at hmap
      rw [← hmap]
      exact hm sv0 hmem0

/-- Folded support bumps keep every support value at least one. -/
theorem foldl_bumpSupport_inv {m : List (String × ℚ)} (hm : ∀ sv ∈ m, 1 ≤ sv.2)
    (ids : List String) : ∀ sv ∈ ids.foldl bumpSupport m, 1 ≤ sv.2 := by
  induction ids generalizing m with
  | nil => exact hm
  | cons a rest ih => exact ih (bumpSupport_inv hm a)

/-- The inherited support of a fresh pattern is at least one. -/
theorem getD_lookupSupport_ge {m : List (String × ℚ)} (hm : ∀ sv ∈ m, 1 ≤ sv.2)
    (aId : String) : (1:ℚ) ≤ (lookupSupport aId m).getD 1 := by
  rcases hl : lookupSupport aId m with _ | s
  · norm_num
  · rcases lookupSupport_mem hl with ⟨sv, hmem, hs⟩
    rw [Option.getD_some, ← hs]
    exact hm sv hmem

/-- The per-event bump keeps an entry's episode count nonnegative and
bounded by its antecedent count. -/
theorem bumpEntry_inv {kp : PatternKey × PatternStats}
    (h : 0 ≤ kp.2.episodeCount ∧ kp.2.episodeCount ≤ kp.2.antecedentCount)
    (t : ℚ) (anteIds : List String) (consequent : String) :
    0 ≤ (bumpEntry t anteIds consequent kp).2.episodeCount ∧
      (bumpEntry t anteIds consequent kp).2.episodeCount ≤
        (bumpEntry t anteIds consequent kp).2.antecedentCount := by
  rw [bumpEntry]
  by_cases h1 : kp.1.1 ∈ anteIds
  · rw [if_pos h1]
    by_cases h2 : kp.1.2 = consequent
    · rw [if_pos h2]
      show 0 ≤ qadd kp.2.episodeCount 1 ∧
        qadd kp.2.episodeCount 1 ≤ qadd kp.2.antecedentCount 1
      rw [qadd_eq, qadd_eq]
      exact ⟨by linarith [h.1], by linarith [h.2]⟩
    · rw [if_neg h2]
      show 0 ≤ kp.2.episodeCount ∧ kp.2.episodeCount ≤ qadd kp.2.antecedentCount 1
      rw [qadd_eq]
      exact ⟨h.1, by linarith [h.2]⟩
  · rw [if_neg h1]
    exact h

/-- An entry of the store after the fresh-pattern inserts is an already
bumped entry or a fresh entry with inherited support. -/
theorem mem_foldl_insertFresh {t : ℚ} {consequent : String} {sup : List (String × ℚ)}
    {base : List (PatternKey × PatternStats)} {ids : List String}
    {kp : PatternKey × PatternStats}
    (h : kp ∈ ids.foldl (insertFresh t consequent sup) base) :
    kp ∈ base ∨ ∃ aId : String,
      kp = ((aId, consequent), freshStats t ((lookupSupport aId sup).getD 1)) := by
  induction ids generalizing base with
  | nil => exact Or.inl h
  | cons a rest ih =>
    rcases ih h with h2 | h2
    · rw [insertFresh] at h2
      by_cases hx : (lookupStats (a, consequent) base).isSome
      · rw [if_pos hx] at h2
        exact Or.inl h2
      · rw [if_neg hx] at h2
        rcases List.mem_cons.mp h2 with h3 | h3
        · exact Or.inr ⟨a, h3⟩
        · exact Or.inl h3
    · exact Or.inr h2

/-- onEvent preserves the store invariant. -/
theorem onEvent_inv {st : MinerState} (h : StoreInv st) (e : ActionEvent) :
    StoreInv (onEvent st e) := by
  rcases h with ⟨hstore, hsup⟩
  constructor
  · intro kp hkp
    have hsup2 : ∀ sv ∈ ((candidates st.window e).map (fun a => a.actionId)).foldl
        bumpSupport st.support, 1 ≤ sv.2 := foldl_bumpSupport_inv hsup _
    rcases mem_foldl_insertFresh hkp with h2 | ⟨aId, h2⟩
    · rcases List.mem_map.mp h2 with ⟨kp0, hmem0, hmap⟩
      rw [← hmap]
      exact bumpEntry_inv (hstore kp0 hmem0) _ _ _
    · rw [h2]
      show (0:ℚ) ≤ 1 ∧ (1:ℚ) ≤ (lookupSupport aId _).getD 1
      exact ⟨by norm_num, getD_lookupSupport_ge hsup2 aId⟩
  · exact foldl_bumpSupport_inv hsup _

/-- Decay with a nonnegative factor preserves the store invariant. -/
theorem applyDecay_inv {st : MinerState} (h : StoreInv st) {d : ℚ} (hd : 0 ≤ d) :
    StoreInv (applyDecay d st) := by
  rcases h with ⟨hstore, hsup⟩
  refine ⟨?_, hsup⟩
  intro kp hkp
  rcases List.mem_filterMap.mp hkp with ⟨kp0, hmem0, hmap⟩
  rcases hstore kp0 hmem0 with ⟨h1, h2⟩
  by_cases hprune : (qlt (qmul kp0.2.antecedentCount d) pruneFloor &&
      qlt (qmul kp0.2.episodeCount d) pruneFloor) = true
  · rw [if_pos hprune] at hmap
    exact absurd hmap (by simp)
  · rw [if_neg hprune] at hmap
    rcases Option.some.inj hmap with rfl
    constructor
    · show (0:ℚ) ≤ qmul kp0.2.episodeCount d
      rw [qmul_eq]
      exact mul_nonneg h1 hd
    · show qmul kp0.2.episodeCount d ≤ qmul kp0.2.antecedentCount d
      rw [qmul_eq, qmul_eq]
      exact mul_le_mul_of_nonneg_right h2 hd

/-- Feedback preserves the store invariant: only weights change. -/
theorem record_inv {st : MinerState} (h : StoreInv st) (k : PatternKey) (d : Decision) :
    StoreInv (record k d st) := by
  rcases h with ⟨hstore, hsup⟩
  refine ⟨?_, hsup⟩
  intro kp hkp
  rcases List.mem_map.mp hkp with ⟨kp0, hmem0, hmap⟩
  by_cases heq : kp0.1 = k
  · rw [if_pos heq] at hmap
    rw [← hmap]
    exact hstore kp0 hmem0
  · rw [if_neg heq] at hmap
    rw [← hmap]
    exact hstore kp0 hmem0

/-- The empty state satisfies the store invariant. -/
theorem initState_inv : StoreInv initState := by
  constructor
  · intro kp hkp
    exact absurd hkp (List.not_mem_nil kp)
  · intro sv hsv
    exact absurd hsv (List.not_mem_nil sv)

/-- Replay preserves the store invariant. -/
theorem replayLog_inv {st : MinerState} (h : StoreInv st) (log : List ActionEvent) :
    StoreInv (replayLog st log) := by
  induction log generalizing st with
  | nil => exact h
  | cons e rest ih => exact ih (onEvent_inv h e)

/-- A rebuilt store satisfies the store invariant. -/
theorem rebuild_inv (log : List ActionEvent) : StoreInv (rebuild log) :=
  replayLog_inv initState_inv log

/-- Every reachable state satisfies the store invariant. -/
theorem reachable_inv {st : MinerState} (h : Reachable st) : StoreInv st := by
  induction h with
  | refl => exact initState_inv
  | tail hr step ih =>
    cases step with
    | event e => exact onEvent_inv ih e
    | decay d h0 h1 => exact applyDecay_inv ih (le_of_lt h0)
    | feedback k dec => exact record_inv ih k dec
    | rebuildStep log => exact rebuild_inv log

/-- C4: in every Pattern Store state reachable by any sequence of onEvent,
decay, rebuild and feedback operations, every stored pattern has its
confidence in the unit interval and its episode count bounded by its
antecedent count. -/
theorem c4_confidence_bounds (st : MinerState) (hre : Reachable st) (k : PatternKey)
    (p : PatternStats) (hp : lookupStats k st.store = some p) :
    0 ≤ confidence p ∧ confidence p ≤ 1 ∧ p.episodeCount ≤ p.antecedentCount := by
  rcases lookupStats_mem hp with ⟨kp, hmem, hk, hpeq⟩
  rcases (reachable_inv hre).1 kp hmem with ⟨h1, h2⟩
  rw [hpeq] at h1 h2
  have hcases : p.antecedentCount = 0 ∨ 0 < p.antecedentCount :=
    (lt_or_eq_of_le (le_trans h1 h2)).symm.imp Eq.symm id
  refine ⟨?_, ?_, h2⟩
  · rw [confidence]
    rcases hcases with h0 | h0
    · rw [if_pos h0]
    · rw [if_neg (ne_of_gt h0), qdiv_eq]
      exact div_nonneg h1 (le_of_lt h0)
  · rw [confidence]
    rcases hcases with h0 | h0
    · rw [if_pos h0]
      norm_num
    · rw [if_neg (ne_of_gt h0), qdiv_eq]
      exact (div_le_one h0).mpr h2

/-- C4 witness: the bounds at the pattern created by two concrete events. -/
theorem c4_witness_two_events :
    (0:ℚ) ≤ confidence pairStatsAB ∧ confidence pairStatsAB ≤ 1 ∧
      pairStatsAB.episodeCount ≤ pairStatsAB.antecedentCount :=
  c4_confidence_bounds minerPairState
    (Relation.ReflTransGen.tail
      (Relation.ReflTransGen.tail Relation.ReflTransGen.refl (MinerStep.event initState evA0))
      (MinerStep.event (onEvent initState evA0) evB10))
    ("A", "B") pairStatsAB (by decide)

/-! ## Exponential decay -/

/-- C6: with a positive rate and positive elapsed time, one decay pass
strictly decreases both counts of a pattern with positive counts, and some
positive elapsed time drives both counts below the prune floor so that the
pattern is removed. -/
theorem c6_decay_monotonicity (lam dt : ℝ) (p : DecayCounts) (hlam : 0 < lam)
    (hdt : 0 < dt) (ha : 0 < p.antecedentCount) (he : 0 < p.episodeCount) :
    ((decayCounts lam dt p).antecedentCount < p.antecedentCount ∧
     (decayCounts lam dt p).episodeCount < p.episodeCount) ∧
    ∃ dt2 : ℝ, 0 < dt2 ∧ decayTick lam dt2 p = none := by
  have hexp : Real.exp (-(lam * dt)) < 1 := by
    rw [Real.exp_lt_one_iff]
    nlinarith
  constructor
  · exact ⟨mul_lt_of_lt_one_right ha hexp, mul_lt_of_lt_one_right he hexp⟩
  · set c := max p.antecedentCount p.episodeCount with hc
    have hcpos : 0 < c := lt_max_of_lt_left ha
    set L := Real.log (100 * c) with hL
    refine ⟨(|L| + 1) / lam, div_pos (by positivity) hlam, ?_⟩
    have hmul : lam * ((|L| + 1) / lam) = |L| + 1 := mul_div_cancel₀ _ (ne_of_gt hlam)
    have hf : Real.exp (-(lam * ((|L| + 1) / lam))) < 1 / (100 * c) := by
      rw [hmul]
      have h1 : Real.exp (-(|L| + 1)) ≤ Real.exp (-(L + 1)) := by
        apply Real.exp_le_exp.mpr
        have := le_abs_self L
        linarith
      have h2 : Real.exp (-(L + 1)) < Real.exp (-L) := by
        apply Real.exp_lt_exp.mpr
        linarith
      have h3 : Real.exp (-L) = 1 / (100 * c) := by
        rw [Real.exp_neg, hL, Real.exp_log (by positivity), one_div]
      calc Real.exp (-(|L| + 1)) ≤ Real.exp (-(L + 1)) := h1
        _ < Real.exp (-L) := h2
        _ = 1 / (100 * c) := h3
    have hante : (decayCounts lam ((|L| + 1) / lam) p).antecedentCount < 1 / 100 := by
      show p.antecedentCount * Real.exp (-(lam * ((|L| + 1) / lam))) < 1 / 100
      calc p.antecedentCount * Real.exp (-(lam * ((|L| + 1) / lam)))
          ≤ c * Real.exp (-(lam * ((|L| + 1) / lam))) :=
            mul_le_mul_of_nonneg_right (le_max_left _ _) (le_of_lt (Real.exp_pos _))
        _ < c * (1 / (100 * c)) := mul_lt_mul_of_pos_left hf hcpos
        _ = 1 / 100 := by
            field_simp
            ring
    have hep : (decayCounts lam ((|L| + 1) / lam) p).episodeCount < 1 / 100 := by
      show p.episodeCount * Real.exp (-(lam * ((|L| + 1) / lam))) < 1 / 100
      calc p.episodeCount * Real.exp (-(lam * ((|L| + 1) / lam)))
          ≤ c * Real.exp (-(lam * ((|L| + 1) / lam))) :=
            mul_le_mul_of_nonneg_right (le_max_right _ _) (le_of_lt (Real.exp_pos _))
        _ < c * (1 / (100 * c)) := mul_lt_mul_of_pos_left hf hcpos
        _ = 1 / 100 := by
            field_simp
            ring
    simp only [decayTick]
    rw [if_pos ⟨hante, hep⟩]

/-- C6 witness: unit rate and unit counts decay strictly and are
eventually pruned. -/
theorem c6_witness_unit_decay :
    ((decayCounts 1 1 unitCounts).antecedentCount < unitCounts.antecedentCount ∧
     (decayCounts 1 1 unitCounts).episodeCount < unitCounts.episodeCount) ∧
    ∃ dt2 : ℝ, 0 < dt2 ∧ decayTick 1 dt2 unitCounts = none :=
  c6_decay_monotonicity 1 1 unitCounts (by norm_num) (by norm_num)
    (by show (0:ℝ) < 1; norm_num) (by show (0:ℝ) < 1; norm_num)
